import Mathlib

/-!
Verification of the request/response mapping and UI state logic of a
browser chat client (Gemini Vision Chat).

The definitions below are a shallow embedding of
`src/services/geminiService.ts`, `src/components/ChatInterface.tsx` and
the camera-capture component.  JavaScript objects with optional fields
become structures with `Option` fields; JavaScript truthiness on strings
(the empty string is falsy) is made explicit; the insertion-order and
overwrite semantics of a JavaScript `Map` is modelled by an association
list whose `set` updates a present key's value in place and appends an
absent key at the end.
-/

namespace VisionChat

/-- Role of a chat message (`types.ts`: `user` or `model`). -/
inductive Role where
  | user
  | model
deriving Repr, DecidableEq

/-- A grounding citation (`types.ts` GroundingSource): a uri and a title. -/
structure GroundingSource where
  uri : String
  title : String
deriving Repr, DecidableEq

/-- Inline binary payload of a part (`types.ts` ChatPart.inlineData). -/
structure InlineData where
  mimeType : String
  data : String
deriving Repr, DecidableEq

/-- A content part (`types.ts` ChatPart): both fields optional. -/
structure ChatPart where
  text : Option String := none
  inlineData : Option InlineData := none
deriving Repr, DecidableEq

/-- A chat message (`types.ts` ChatMessage). -/
structure ChatMessage where
  role : Role
  parts : List ChatPart
  groundingSources : Option (List GroundingSource) := none
deriving Repr, DecidableEq

/-- The optional image argument of the exchange operation. -/
structure ImagePayload where
  base64 : String
  mimeType : String
deriving Repr, DecidableEq

/-- JavaScript truthiness of an optional string field: truthy iff the
field is present and the string is non-empty. -/
def jsTruthyStr : Option String → Bool
  | some s => s != ""
  | none => false

/-- `fileToGenerativePart` from `geminiService.ts`: wraps a base64 string
and mime type into an inline-data part. -/
def fileToGenerativePart (base64 mimeType : String) : ChatPart :=
  { inlineData := some { mimeType := mimeType, data := base64 } }

/-- The `userParts` array built in `sendMessageToGemini` (lines 27-30):
it always starts with a text part holding `message`, and the image part
is pushed after it when an image is present. -/
def userParts (message : String) (image : Option ImagePayload) : List ChatPart :=
  { text := some message } ::
    (match image with
     | some img => [fileToGenerativePart img.base64 img.mimeType]
     | none => [])

/-- The per-part mapping applied to history parts when building the
request (`geminiService.ts` lines 35-39): a truthy (non-empty) `text`
wins, else a present `inlineData`, else the empty object. -/
def mapHistoryPart (part : ChatPart) : ChatPart :=
  if jsTruthyStr part.text then { text := part.text }
  else if part.inlineData.isSome then { inlineData := part.inlineData }
  else {}

/-- A provider-request turn: a role together with its parts. -/
structure Turn where
  role : Role
  parts : List ChatPart
deriving Repr, DecidableEq

/-- The `contents` array assembled in `sendMessageToGemini`
(lines 32-42): the mapped history turns followed by the new user turn. -/
def contents (history : List ChatMessage) (message : String)
    (image : Option ImagePayload) : List Turn :=
  history.map (fun msg => { role := msg.role, parts := msg.parts.map mapHistoryPart }) ++
    [{ role := Role.user, parts := userParts message image }]

/-- The `web` object of a grounding chunk: optional uri and title. -/
structure WebInfo where
  uri : Option String := none
  title : Option String := none
deriving Repr, DecidableEq

/-- A grounding chunk of the provider response: an optional `web` field. -/
structure GroundingChunk where
  web : Option WebInfo := none
deriving Repr, DecidableEq

/-- The filter predicate of line 57: `chunk.web && chunk.web.uri &&
chunk.web.title`, with JavaScript truthiness on the strings. -/
def chunkHasWebUriTitle (c : GroundingChunk) : Bool :=
  match c.web with
  | some w => jsTruthyStr w.uri && jsTruthyStr w.title
  | none => false

/-- The `groundingSources` list of lines 55-62: filter the chunks to
those with a truthy web uri and title, then project each to a
`GroundingSource`.  The `none` branch of the projection is unreachable
because the filter requires `web` to be present. -/
def groundingSources (chunks : List GroundingChunk) : List GroundingSource :=
  (chunks.filter chunkHasWebUriTitle).map fun c =>
    match c.web with
    | some w => { uri := w.uri.getD "", title := w.title.getD "" }
    | none => { uri := "", title := "" }

/-- One step of building the JavaScript `Map` of line 65: `map.set(uri,
item)` overwrites the value of a present key in place and appends an
absent key at the end, preserving key insertion order. -/
def jsMapStep (acc : List (String × GroundingSource)) (item : GroundingSource) :
    List (String × GroundingSource) :=
  if acc.any (fun p => p.1 == item.uri) then
    acc.map (fun p => if p.1 == item.uri then (p.1, item) else p)
  else acc ++ [(item.uri, item)]

/-- The entries of `new Map(groundingSources.map(item => [item.uri, item]))`
from line 65, in the Map's iteration order. -/
def jsMapEntries (sources : List GroundingSource) : List (String × GroundingSource) :=
  sources.foldl jsMapStep []

/-- `uniqueSources` of line 65: `Array.from(map.values())`. -/
def dedupeByUri (sources : List GroundingSource) : List GroundingSource :=
  (jsMapEntries sources).map Prod.snd

/-- Outcome of the awaited provider call `ai.models.generateContent`:
either a response carrying an optional text and an optional grounding
chunk list, or a thrown value, which carries a message exactly when it
is an `Error` instance. -/
inductive ProviderOutcome where
  | success (text : Option String) (chunks : Option (List GroundingChunk))
  | failure (errMessage : Option String)
deriving Repr, DecidableEq

/-- The value returned by `sendMessageToGemini`: `{text, sources}` on
success, `{error}` on failure. -/
inductive ExchangeResult where
  | ok (text : Option String) (sources : List GroundingSource)
  | err (message : String)
deriving Repr, DecidableEq

/-- `sendMessageToGemini` (`geminiService.ts` lines 21-80).  The network
call is modelled by the `outcome` argument; the whole body sits inside a
try/catch, so the function is total: the catch of lines 73-79 turns a
thrown `Error` into `{error: error.message}` and anything else into the
generic fallback string.  The request built before the call is
`contents history message image` (bound to `_req` to record that it is
constructed on every invocation). -/
def sendMessageToGemini (history : List ChatMessage) (message : String)
    (image : Option ImagePayload) (outcome : ProviderOutcome) : ExchangeResult :=
  let _req : List Turn := contents history message image
  match outcome with
  | ProviderOutcome.success text chunks =>
      ExchangeResult.ok text (dedupeByUri (groundingSources (chunks.getD [])))
  | ProviderOutcome.failure errMessage =>
      ExchangeResult.err (errMessage.getD "An unknown error occurred.")

/-! ### Specification-side description of the Map-based deduplication

`firstSeenKeys` lists the distinct uris in order of first occurrence;
`lastWith` picks, for a uri, the last citation carrying it.  The
characterisation theorem below shows the Map-based `dedupeByUri` emits,
for each uri in first-seen order, the last-seen citation with that uri. -/

/-- The distinct elements of a list in order of first occurrence. -/
def firstSeenKeys : List String → List String
  | [] => []
  | k :: ks => k :: (firstSeenKeys ks).filter (fun x => x != k)

/-- The last element of `l` whose uri is `k`, if any. -/
def lastWith (l : List GroundingSource) (k : String) : Option GroundingSource :=
  (l.filter (fun s => s.uri == k)).getLast?

/-- The Map entry the deduplication stores under key `k`. -/
def entrySpec (l : List GroundingSource) (k : String) : Option (String × GroundingSource) :=
  (lastWith l k).map (fun v => (k, v))

theorem getLast?_mem {α : Type} {l : List α} {a : α} (h : l.getLast? = some a) : a ∈ l := by
  obtain ⟨hne, rfl⟩ := List.mem_getLast?_eq_getLast h
  exact List.getLast_mem hne

theorem mem_firstSeenKeys {x : String} : ∀ {ks : List String}, x ∈ firstSeenKeys ks ↔ x ∈ ks := by
  intro ks
  induction ks with
  | nil => simp [firstSeenKeys]
  | cons k ks ih =>
      by_cases hx : x = k
      · simp [firstSeenKeys, hx]
      · simp [firstSeenKeys, List.mem_filter, hx, ih, bne_iff_ne]

theorem nodup_firstSeenKeys : ∀ (ks : List String), (firstSeenKeys ks).Nodup := by
  intro ks
  induction ks with
  | nil => simp [firstSeenKeys]
  | cons k ks ih =>
      refine List.Nodup.cons ?_ (ih.filter _)
      intro hk
      have := (List.mem_filter.mp hk).2
      simp [bne_iff_ne] at this

theorem firstSeenKeys_concat (k : String) :
    ∀ (ks : List String), firstSeenKeys (ks ++ [k]) =
      if k ∈ ks then firstSeenKeys ks else firstSeenKeys ks ++ [k] := by
  intro ks
  induction ks with
  | nil => simp [firstSeenKeys]
  | cons a ks ih =>
      by_cases hmem : k ∈ ks
      · simp [firstSeenKeys, ih, hmem, List.mem_cons]
      · by_cases hka : k = a
        · subst hka
          simp [firstSeenKeys, ih, hmem, List.filter_append, firstSeenKeys]
        · simp [firstSeenKeys, ih, hmem, hka, List.filter_append, bne_iff_ne,
            List.mem_cons, Ne.symm hka]

theorem lastWith_concat (l : List GroundingSource) (x : GroundingSource) (k : String) :
    lastWith (l ++ [x]) k = if x.uri = k then some x else lastWith l k := by
  by_cases h : x.uri = k
  · simp [lastWith, List.filter_append, h, List.getLast?_concat]
  · simp [lastWith, List.filter_append, h]

theorem lastWith_isSome_of_mem {l : List GroundingSource} {k : String}
    (h : k ∈ l.map GroundingSource.uri) : ∃ v, lastWith l k = some v := by
  obtain ⟨s, hs, hsk⟩ := List.mem_map.mp h
  have hmem : s ∈ l.filter (fun s => s.uri == k) :=
    List.mem_filter.mpr ⟨hs, by simp [hsk]⟩
  have hne : l.filter (fun s => s.uri == k) ≠ [] := List.ne_nil_of_mem hmem
  obtain ⟨v, hv⟩ := Option.isSome_iff_exists.mp (List.getLast?_isSome.mpr hne)
  exact ⟨v, hv⟩

theorem lastWith_uri {l : List GroundingSource} {k : String} {v : GroundingSource}
    (h : lastWith l k = some v) : v.uri = k := by
  have hv : v ∈ l.filter (fun s => s.uri == k) := getLast?_mem h
  have := (List.mem_filter.mp hv).2
  simpa using this

theorem lastWith_mem {l : List GroundingSource} {k : String} {v : GroundingSource}
    (h : lastWith l k = some v) : v ∈ l :=
  List.mem_of_mem_filter (getLast?_mem h)

theorem jsMapEntries_characterization : ∀ (l : List GroundingSource),
    jsMapEntries l = (firstSeenKeys (l.map GroundingSource.uri)).filterMap (entrySpec l) := by
  intro l
  induction l using List.reverseRecOn with
  | nil => simp [jsMapEntries, firstSeenKeys]
  | append_singleton l x ih =>
      have hstep : jsMapEntries (l ++ [x]) = jsMapStep (jsMapEntries l) x := by
        simp [jsMapEntries, List.foldl_append]
      by_cases hmem : x.uri ∈ l.map GroundingSource.uri
      · -- the key is already present: the Map overwrites the value in place
        have hkeys : firstSeenKeys ((l ++ [x]).map GroundingSource.uri) =
            firstSeenKeys (l.map GroundingSource.uri) := by
          simp [List.map_append, firstSeenKeys_concat, hmem]
        obtain ⟨v, hv⟩ := lastWith_isSome_of_mem hmem
        have hany : (jsMapEntries l).any (fun p => p.1 == x.uri) = true := by
          rw [ih]
          refine List.any_eq_true.mpr ⟨(x.uri, v), ?_, by simp⟩
          exact List.mem_filterMap.mpr ⟨x.uri, mem_firstSeenKeys.mpr hmem,
            by simp [entrySpec, hv]⟩
        rw [hstep, jsMapStep, if_pos hany, ih, hkeys, List.map_filterMap]
        refine List.filterMap_congr ?_
        intro k hk
        have hkmem : k ∈ l.map GroundingSource.uri := mem_firstSeenKeys.mp hk
        obtain ⟨w, hw⟩ := lastWith_isSome_of_mem hkmem
        by_cases hkx : x.uri = k
        · subst hkx
          simp [entrySpec, hw, lastWith_concat]
        · simp [entrySpec, hw, lastWith_concat, hkx, Ne.symm hkx]
      · -- new key: the Map appends the entry at the end
        have hkeys : firstSeenKeys ((l ++ [x]).map GroundingSource.uri) =
            firstSeenKeys (l.map GroundingSource.uri) ++ [x.uri] := by
          simp [List.map_append, firstSeenKeys_concat, hmem]
        have hany : (jsMapEntries l).any (fun p => p.1 == x.uri) = false := by
          rw [ih]
          refine List.any_eq_false.mpr ?_
          rintro ⟨k, v⟩ hp
          simp only [beq_iff_eq]
          intro hcon
          obtain ⟨k2, hk2, hk2e⟩ := List.mem_filterMap.mp hp
          obtain ⟨w, hw⟩ := lastWith_isSome_of_mem (mem_firstSeenKeys.mp hk2)
          simp [entrySpec, hw] at hk2e
          obtain ⟨hkk, -⟩ := hk2e
          exact hmem (by rw [← hcon, ← hkk]; exact mem_firstSeenKeys.mp hk2)
        rw [hstep, jsMapStep, if_neg (by simp [hany]), ih, hkeys, List.filterMap_append]
        congr 1
        · refine List.filterMap_congr ?_
          intro k hk
          have hkmem : k ∈ l.map GroundingSource.uri := mem_firstSeenKeys.mp hk
          have hkx : x.uri ≠ k := fun hcon => hmem (hcon ▸ hkmem)
          simp [entrySpec, lastWith_concat, hkx]
        · simp [entrySpec, lastWith_concat]

/-- The functional specification of the deduplication: for each uri in
first-seen order, the last citation of the input carrying that uri. -/
def dedupSpecList (l : List GroundingSource) : List GroundingSource :=
  (firstSeenKeys (l.map GroundingSource.uri)).filterMap (lastWith l)

theorem dedupeByUri_eq_spec (l : List GroundingSource) :
    dedupeByUri l = dedupSpecList l := by
  rw [dedupeByUri, jsMapEntries_characterization, List.map_filterMap, dedupSpecList]
  refine List.filterMap_congr ?_
  intro k _
  simp [entrySpec, Option.map_map, Function.comp]

theorem dedupeByUri_uris (l : List GroundingSource) :
    (dedupeByUri l).map GroundingSource.uri = firstSeenKeys (l.map GroundingSource.uri) := by
  rw [dedupeByUri_eq_spec, dedupSpecList, List.map_filterMap]
  have h : ∀ k ∈ firstSeenKeys (l.map GroundingSource.uri),
      (lastWith l k).map GroundingSource.uri = some k := by
    intro k hk
    obtain ⟨v, hv⟩ := lastWith_isSome_of_mem (mem_firstSeenKeys.mp hk)
    simp [hv, lastWith_uri hv]
  calc (firstSeenKeys (l.map GroundingSource.uri)).filterMap
          (fun k => (lastWith l k).map GroundingSource.uri)
      = (firstSeenKeys (l.map GroundingSource.uri)).filterMap some :=
        List.filterMap_congr h
    _ = firstSeenKeys (l.map GroundingSource.uri) := List.filterMap_some _

theorem dedupeByUri_subset {l : List GroundingSource} {s : GroundingSource}
    (h : s ∈ dedupeByUri l) : s ∈ l := by
  rw [dedupeByUri_eq_spec, dedupSpecList] at h
  obtain ⟨k, -, hk⟩ := List.mem_filterMap.mp h
  exact lastWith_mem hk

theorem dedupeByUri_last {l : List GroundingSource} {s : GroundingSource}
    (h : s ∈ dedupeByUri l) : lastWith l s.uri = some s := by
  rw [dedupeByUri_eq_spec, dedupSpecList] at h
  obtain ⟨k, -, hk⟩ := List.mem_filterMap.mp h
  rw [lastWith_uri hk]
  exact hk

theorem firstSeenKeys_of_nodup : ∀ {ks : List String}, ks.Nodup → firstSeenKeys ks = ks := by
  intro ks h
  induction ks with
  | nil => rfl
  | cons k ks ih =>
      rw [firstSeenKeys, ih h.of_cons, List.filter_eq_self.mpr ?_]
      intro a ha
      simp [bne_iff_ne]
      exact fun hcon => (List.nodup_cons.mp h).1 (hcon ▸ ha)

theorem filter_uri_singleton : ∀ {l : List GroundingSource} {s : GroundingSource},
    (l.map GroundingSource.uri).Nodup → s ∈ l → l.filter (fun x => x.uri == s.uri) = [s] := by
  intro l
  induction l with
  | nil => intro s _ hs; exact absurd hs (List.not_mem_nil s)
  | cons a t ih =>
      intro s hnd hs
      rw [List.map_cons] at hnd
      have hnot : a.uri ∉ t.map GroundingSource.uri := (List.nodup_cons.mp hnd).1
      rcases List.mem_cons.mp hs with rfl | hst
      · have ht : t.filter (fun x => x.uri == s.uri) = [] := by
          refine List.filter_eq_nil_iff.mpr ?_
          intro x hx
          simp only [beq_iff_eq]
          intro hcon
          exact hnot (List.mem_map.mpr ⟨x, hx, hcon⟩)
        simp [List.filter_cons, ht]
      · have hne : ¬ (a.uri == s.uri) = true := by
          simp only [beq_iff_eq]
          intro hcon
          exact hnot (hcon ▸ List.mem_map.mpr ⟨s, hst, rfl⟩)
        have hnd2 : (t.map GroundingSource.uri).Nodup :=
          (List.nodup_cons.mp (by simpa using hnd)).2
        simp [List.filter_cons, hne, ih hnd2 hst]

theorem dedupeByUri_of_nodup {l : List GroundingSource}
    (h : (l.map GroundingSource.uri).Nodup) : dedupeByUri l = l := by
  rw [dedupeByUri_eq_spec, dedupSpecList, firstSeenKeys_of_nodup h, List.filterMap_map]
  have hp : ∀ s ∈ l, (lastWith l ∘ GroundingSource.uri) s = some s := by
    intro s hs
    simp only [Function.comp]
    rw [lastWith, filter_uri_singleton h hs]
    rfl
  calc l.filterMap (lastWith l ∘ GroundingSource.uri)
      = l.filterMap some := List.filterMap_congr hp
    _ = l := List.filterMap_some l

theorem dedupeByUri_idem (l : List GroundingSource) :
    dedupeByUri (dedupeByUri l) = dedupeByUri l := by
  refine dedupeByUri_of_nodup ?_
  rw [dedupeByUri_uris]
  exact nodup_firstSeenKeys _

/-! ### Specification-side description of the request assembly -/

/-- Modelled on the (amended) spec wording for the history-part mapping:
a part with non-empty text is re-expressed as a text part; otherwise a
part with inline data present is re-expressed as an inline-data part; a
part whose text is empty or absent and whose inline data is absent is
passed through as an empty object. -/
def specMapPart (p : ChatPart) : ChatPart :=
  match p.text, p.inlineData with
  | some t, some d => if t = "" then { inlineData := some d } else { text := some t }
  | some t, none => if t = "" then {} else { text := some t }
  | none, some d => { inlineData := some d }
  | none, none => {}

/-- The assembled request as the spec words it: history turns first, in
original order, each part mapped by `specMapPart`; then the new user
turn last, its text part preceding its image part. -/
def contentsSpec (history : List ChatMessage) (message : String)
    (image : Option ImagePayload) : List Turn :=
  history.map (fun msg => { role := msg.role, parts := msg.parts.map specMapPart }) ++
    [{ role := Role.user,
       parts := { text := some message } ::
         (match image with
          | some img => [{ inlineData := some { mimeType := img.mimeType, data := img.base64 } }]
          | none => []) }]

theorem mapHistoryPart_eq_specMapPart (p : ChatPart) : mapHistoryPart p = specMapPart p := by
  obtain ⟨t, d⟩ := p
  cases t with
  | none => cases d <;> simp [mapHistoryPart, specMapPart, jsTruthyStr]
  | some s =>
      by_cases hs : s = "" <;>
        cases d <;>
          simp [mapHistoryPart, specMapPart, jsTruthyStr, hs]

/-! ### Embedding of the conversation store (`ChatInterface.tsx`) -/

/-- JavaScript `String.prototype.trim`, modelled on the character list:
drop leading and trailing whitespace. -/
def jsTrim (s : String) : String :=
  ⟨((s.data.dropWhile Char.isWhitespace).reverse.dropWhile Char.isWhitespace).reverse⟩

/-- The arguments of one call to `sendMessageToGemini`: the history, the
forwarded text and the forwarded optional image. -/
abbrev CallArgs := List ChatMessage × String × Option ImagePayload

/-- The component state of `ChatInterface` (lines 46-51): the message
history, the pending input text, the loading flag, the transient error
banner and the pending image. -/
structure ChatState where
  messages : List ChatMessage
  input : String
  isLoading : Bool
  error : Option String
  imageToSend : Option ImagePayload
deriving Repr, DecidableEq

/-- The `userMessage` built by `handleSendMessage` (lines 74-89): a text
part is pushed only when the trimmed input is non-empty, then an
inline-data part when an image is pending. -/
def userMessageFor (trimmedInput : String) (image : Option ImagePayload) : ChatMessage :=
  { role := Role.user,
    parts :=
      (if trimmedInput != "" then [{ text := some trimmedInput }] else []) ++
        (match image with
         | some img => [{ inlineData := some { mimeType := img.mimeType, data := img.base64 } }]
         | none => []) }

/-- The synchronous prefix of `handleSendMessage` (lines 67-96), up to
the awaited network call.  Returns the state after the optimistic
update together with the call arguments, or `none` in the second
component when the early return of line 69 fires and no call is
issued. -/
def handleSendMessagePre (s : ChatState) : ChatState × Option CallArgs :=
  let trimmedInput := jsTrim s.input
  if trimmedInput == "" && s.imageToSend.isNone then (s, none)
  else
    ({ messages := s.messages ++ [userMessageFor trimmedInput s.imageToSend],
       input := "",
       isLoading := true,
       error := none,
       imageToSend := none },
     some (s.messages, trimmedInput, s.imageToSend))

/-- JavaScript truthiness of `result.error` in line 98: the error branch
is taken iff the result is an error with a non-empty message. -/
def errTruthy : ExchangeResult → Bool
  | ExchangeResult.err m => m != ""
  | ExchangeResult.ok _ _ => false

/-- Reading `result.text` as the JavaScript code does: absent on the
error shape. -/
def resultTextField : ExchangeResult → Option String
  | ExchangeResult.ok t _ => t
  | ExchangeResult.err _ => none

/-- Reading `result.sources` as the JavaScript code does: absent on the
error shape. -/
def resultSourcesField : ExchangeResult → Option (List GroundingSource)
  | ExchangeResult.ok _ s => some s
  | ExchangeResult.err _ => none

/-- Reading `result.error` as the JavaScript code does. -/
def resultErrField : ExchangeResult → String
  | ExchangeResult.err m => m
  | ExchangeResult.ok _ _ => ""

/-- The continuation of `handleSendMessage` after the network call
resolves (lines 98-114): append the error-wrapped model message or the
model message carrying text and sources, then clear the loading flag. -/
def handleSendMessagePost (s : ChatState) (result : ExchangeResult) : ChatState :=
  if errTruthy result then
    { s with
      error := some (resultErrField result),
      isLoading := false,
      messages := s.messages ++
        [{ role := Role.model,
           parts := [{ text := some ("Sorry, something went wrong: " ++ resultErrField result) }] }] }
  else
    { s with
      isLoading := false,
      messages := s.messages ++
        [{ role := Role.model,
           parts := [{ text := resultTextField result }],
           groundingSources := resultSourcesField result }] }

/-- The `disabled` expression of the send button (line 221):
`(!input.trim() && !imageToSend) || isLoading`. -/
def sendButtonDisabled (s : ChatState) : Bool :=
  (jsTrim s.input == "" && s.imageToSend.isNone) || s.isLoading

/-- A click on the send button: the browser delivers the click, and so
invokes `handleSendMessage`, only while the button is not disabled. -/
def sendButtonClick (s : ChatState) : ChatState × Option CallArgs :=
  if sendButtonDisabled s then (s, none) else handleSendMessagePre s

/-- An Enter keypress in the textarea (lines 208-213): the textarea is
`disabled={isLoading}` (line 217), so the keydown handler, and with it
`handleSendMessage`, runs only while no exchange is loading. -/
def textareaEnterKey (s : ChatState) : ChatState × Option CallArgs :=
  if s.isLoading then (s, none) else handleSendMessagePre s

/-! ### Embedding of the camera-capture component -/

/-- Observable state of the `CameraCapture` component: whether a
`MediaStream` is currently held (the `stream` state is non-null) and
whether the capture UI has been closed (`onClose` has fired, which in
`ChatInterface` line 124 unmounts the component). -/
structure CameraState where
  stream : Bool
  closed : Bool
deriving Repr, DecidableEq

/-- `stopCamera` (part_001 lines 32-37): stops every track of the held
stream and clears it; a no-op when no stream is held. -/
def stopCamera (s : CameraState) : CameraState :=
  if s.stream then { s with stream := false } else s

/-- The back (cancel) button of the capture UI: its `onClick` handler is
exactly `onClose` — `stopCamera` is not called on this path. -/
def backButtonClick (s : CameraState) : CameraState :=
  { s with closed := true }

/-- The successful branch of `capturePhoto` (part_001 lines 39-57):
`onCapture(...)`, then `stopCamera()`, then `onClose()`. -/
def capturePhotoHandler (s : CameraState) : CameraState :=
  { stopCamera s with closed := true }

/-! ### Claim theorems -/

/-- C1, counterexample: the deduplication does not keep the first-seen
entry for a duplicated uri — the JavaScript `Map.set` overwrites the
stored value, so the title of the last duplicate survives. -/
theorem dedupeByUri_first_seen_counterexample :
    dedupeByUri [⟨"a", "A1"⟩, ⟨"a", "A2"⟩] = [⟨"a", "A2"⟩]
    ∧ dedupeByUri [⟨"a", "A1"⟩, ⟨"a", "A2"⟩] ≠ [⟨"a", "A1"⟩] := by
  decide

/-- C1 (amended): for every citation list, the deduplication keeps, for
each distinct uri, the last-seen entry (including its title), placed at
the position of the uri's first occurrence; the output is ordered by
first occurrence of each uri, and no two output sources share a uri. -/
theorem dedupeByUri_keeps_last_seen_in_first_seen_order (l : List GroundingSource) :
    dedupeByUri l = dedupSpecList l
    ∧ ((dedupeByUri l).map GroundingSource.uri).Nodup
    ∧ ∀ s, s ∈ dedupeByUri l → lastWith l s.uri = some s := by
  refine ⟨dedupeByUri_eq_spec l, ?_, fun s hs => dedupeByUri_last hs⟩
  rw [dedupeByUri_uris]
  exact nodup_firstSeenKeys _

/-- Witness for C1 at a concrete duplicated-uri list. -/
theorem dedupeByUri_keeps_last_seen_witness :
    lastWith [⟨"a", "A1"⟩, ⟨"b", "B"⟩, ⟨"a", "A2"⟩]
      (GroundingSource.uri ⟨"a", "A2"⟩) = some ⟨"a", "A2"⟩ :=
  (dedupeByUri_keeps_last_seen_in_first_seen_order
    [⟨"a", "A1"⟩, ⟨"b", "B"⟩, ⟨"a", "A2"⟩]).2.2 ⟨"a", "A2"⟩ (by decide)

/-- C2, counterexample: with empty `newText` and an image, the new user
turn does not consist of the image part alone — the text part holding
the empty string is always present (line 27 builds it unconditionally). -/
theorem userParts_empty_text_counterexample :
    userParts "" (some ⟨"d", "image/jpeg"⟩) =
      [{ text := some "" }, { inlineData := some ⟨"image/jpeg", "d"⟩ }]
    ∧ userParts "" (some ⟨"d", "image/jpeg"⟩) ≠
      [{ inlineData := some ⟨"image/jpeg", "d"⟩ }] := by
  decide

/-- C2 (amended): the final turn of the assembled request has role user
and its parts are exactly a text part holding `newText` — always, even
when `newText` is empty — followed by an inline-data part if and only if
an image is present. -/
theorem finalTurn_text_always_then_image (history : List ChatMessage) (message : String)
    (image : Option ImagePayload) :
    (contents history message image).getLast? =
      some { role := Role.user, parts := userParts message image }
    ∧ (userParts message image).head? = some { text := some message }
    ∧ (image = none → userParts message image = [{ text := some message }])
    ∧ ∀ img, image = some img →
        userParts message image =
          [{ text := some message },
           { inlineData := some { mimeType := img.mimeType, data := img.base64 } }] := by
  refine ⟨?_, rfl, ?_, ?_⟩
  · rw [contents]
    exact List.getLast?_concat _
  · rintro rfl
    rfl
  · rintro img rfl
    rfl

/-- Witness for C2 at a concrete image-bearing invocation. -/
theorem finalTurn_text_always_then_image_witness :
    userParts "" (some ⟨"dd", "image/png"⟩) =
      [{ text := some "" }, { inlineData := some { mimeType := "image/png", data := "dd" } }] :=
  (finalTurn_text_always_then_image [] "" (some ⟨"dd", "image/png"⟩)).2.2.2
    ⟨"dd", "image/png"⟩ rfl

/-- C3: the exchange operation is total over every input and provider
outcome (the whole body sits in a try/catch, so no exception reaches the
caller): a failure carrying a message yields `{error: message}`, a
failure without one yields the generic fallback string, and a success
yields `{text, sources}`. -/
theorem sendMessageToGemini_total_error_handling (history : List ChatMessage)
    (message : String) (image : Option ImagePayload) (outcome : ProviderOutcome) :
    ((∃ m, sendMessageToGemini history message image outcome = ExchangeResult.err m) ∨
      ∃ t srcs, sendMessageToGemini history message image outcome = ExchangeResult.ok t srcs)
    ∧ (∀ m, outcome = ProviderOutcome.failure (some m) →
        sendMessageToGemini history message image outcome = ExchangeResult.err m)
    ∧ (outcome = ProviderOutcome.failure none →
        sendMessageToGemini history message image outcome =
          ExchangeResult.err "An unknown error occurred.")
    ∧ ∀ t chunks, outcome = ProviderOutcome.success t chunks →
        sendMessageToGemini history message image outcome =
          ExchangeResult.ok t (dedupeByUri (groundingSources (chunks.getD []))) := by
  refine ⟨?_, ?_, ?_, ?_⟩
  · cases outcome with
    | success t chunks => exact Or.inr ⟨t, _, rfl⟩
    | failure m => exact Or.inl ⟨m.getD "An unknown error occurred.", rfl⟩
  · rintro m rfl
    rfl
  · rintro rfl
    rfl
  · rintro t chunks rfl
    rfl

/-- Witness for C3 at a concrete failing outcome. -/
theorem sendMessageToGemini_total_error_handling_witness :
    sendMessageToGemini [] "q" none (ProviderOutcome.failure (some "boom")) =
      ExchangeResult.err "boom" :=
  (sendMessageToGemini_total_error_handling [] "q" none
    (ProviderOutcome.failure (some "boom"))).2.1 "boom" rfl

/-- C4: every source of the exchange result stems from a citation that
exposes both a (non-empty) uri and a (non-empty) title, so citations
lacking either are excluded; the claim's example evaluates as stated. -/
theorem sources_require_uri_and_title (history : List ChatMessage) (message : String)
    (image : Option ImagePayload) (text : Option String) (chunks : List GroundingChunk) :
    sendMessageToGemini history message image (ProviderOutcome.success text (some chunks)) =
      ExchangeResult.ok text (dedupeByUri (groundingSources chunks))
    ∧ (∀ s, s ∈ dedupeByUri (groundingSources chunks) →
        ∃ c, c ∈ chunks ∧ ∃ w, c.web = some w ∧
          w.uri = some s.uri ∧ w.title = some s.title ∧ s.uri ≠ "" ∧ s.title ≠ "")
    ∧ dedupeByUri (groundingSources
        [⟨some ⟨some "a", some "A"⟩⟩, ⟨some ⟨none, some "B"⟩⟩]) = [⟨"a", "A"⟩] := by
  refine ⟨rfl, ?_, by decide⟩
  intro s hs
  have hs2 : s ∈ groundingSources chunks := dedupeByUri_subset hs
  rw [groundingSources] at hs2
  obtain ⟨c, hc, hproj⟩ := List.mem_map.mp hs2
  obtain ⟨hcl, hpass⟩ := List.mem_filter.mp hc
  obtain ⟨webOpt⟩ := c
  cases webOpt with
  | none => simp [chunkHasWebUriTitle] at hpass
  | some w =>
      obtain ⟨uriOpt, titleOpt⟩ := w
      cases uriOpt with
      | none => simp [chunkHasWebUriTitle, jsTruthyStr] at hpass
      | some u =>
          cases titleOpt with
          | none => simp [chunkHasWebUriTitle, jsTruthyStr] at hpass
          | some ti =>
              simp only [chunkHasWebUriTitle, jsTruthyStr, Bool.and_eq_true,
                bne_iff_ne, ne_eq] at hpass
              simp only [Option.getD_some] at hproj
              refine ⟨⟨some ⟨some u, some ti⟩⟩, hcl, ⟨some u, some ti⟩, rfl, ?_⟩
              rw [← hproj]
              exact ⟨rfl, rfl, hpass.1, hpass.2⟩

/-- Witness for C4: the source kept in the example stems from the
citation exposing both fields. -/
theorem sources_require_uri_and_title_witness :
    ∃ c, c ∈ [(⟨some ⟨some "a", some "A"⟩⟩ : GroundingChunk), ⟨some ⟨none, some "B"⟩⟩] ∧
      ∃ w, c.web = some w ∧
        w.uri = some (GroundingSource.uri ⟨"a", "A"⟩) ∧
        w.title = some (GroundingSource.title ⟨"a", "A"⟩) ∧
        GroundingSource.uri ⟨"a", "A"⟩ ≠ "" ∧ GroundingSource.title ⟨"a", "A"⟩ ≠ "" :=
  (sources_require_uri_and_title [] "q" none none
    [⟨some ⟨some "a", some "A"⟩⟩, ⟨some ⟨none, some "B"⟩⟩]).2.1 ⟨"a", "A"⟩ (by decide)

/-- C5, counterexample: a history part that carries an empty text string
(and no inline data) does not lack both fields, yet the request mapping
sends it to the empty object, not to a text part — line 36 tests
JavaScript truthiness, under which the empty string is falsy. -/
theorem contents_empty_text_part_counterexample :
    contents [{ role := Role.user, parts := [{ text := some "" }] }] "hi" none =
      [{ role := Role.user, parts := [{}] },
       { role := Role.user, parts := [{ text := some "hi" }] }]
    ∧ ({ text := some "" } : ChatPart) ≠ ({} : ChatPart)
    ∧ mapHistoryPart { text := some "" } = ({} : ChatPart) := by
  decide

/-- C5 (amended): the assembled request is the history mapped in order —
a part with non-empty text becoming a text part, otherwise a part with
inline data becoming an inline-data part, and a part whose text is empty
or absent and whose inline data is absent becoming an empty object —
followed by the new user turn last, text part before image part; empty
history with text "hi" and no image yields exactly one user turn with
one text part "hi". -/
theorem contents_refines_spec (history : List ChatMessage) (message : String)
    (image : Option ImagePayload) :
    contents history message image = contentsSpec history message image
    ∧ contents [] "hi" none = [{ role := Role.user, parts := [{ text := some "hi" }] }] := by
  refine ⟨?_, by decide⟩
  have hfun : mapHistoryPart = specMapPart := funext mapHistoryPart_eq_specMapPart
  unfold contents contentsSpec
  rw [hfun]
  cases image <;> simp [userParts, fileToGenerativePart]

/-- C6: the deduplication is idempotent — applied to its own output it
returns that output unchanged — and the output lists the uris in
first-seen order. -/
theorem dedupeByUri_idempotent_first_seen_order (l : List GroundingSource) :
    dedupeByUri (dedupeByUri l) = dedupeByUri l
    ∧ (dedupeByUri l).map GroundingSource.uri = firstSeenKeys (l.map GroundingSource.uri) :=
  ⟨dedupeByUri_idem l, dedupeByUri_uris l⟩

/-- C7: with empty pending text and no pending image, the submit handler
is a no-op — the early return of line 69 fires, so the state (message
history, loading flag, everything) is unchanged and no call is issued. -/
theorem submit_empty_noop (s : ChatState) (htext : s.input = "")
    (himg : s.imageToSend = none) :
    handleSendMessagePre s = (s, none) := by
  have h0 : jsTrim "" = "" := by decide
  simp [handleSendMessagePre, htext, himg, h0]

/-- Witness for C7 at a concrete idle state. -/
theorem submit_empty_noop_witness :
    handleSendMessagePre ⟨[], "", false, none, none⟩ =
      (⟨[], "", false, none, none⟩, none) :=
  submit_empty_noop ⟨[], "", false, none, none⟩ rfl rfl

/-- C8 (code bug): the cancel exit of the capture UI leaves an acquired
stream held — the back button's handler is `onClose` alone and no
cleanup runs on unmount, so the `MediaStream` is never stopped on that
path, while the successful-capture exit does stop it. -/
theorem camera_stream_leak_on_cancel :
    backButtonClick ⟨true, false⟩ = ⟨true, true⟩
    ∧ (backButtonClick ⟨true, false⟩).stream = true
    ∧ capturePhotoHandler ⟨true, false⟩ = ⟨false, true⟩ := by
  decide

/-- C9: while an exchange is in flight (`isLoading` true), both
submission entry points — the send button, disabled by line 221, and the
Enter key in the textarea, disabled by line 217 — leave the state
unchanged and issue no call; when the exchange resolves, the loading
flag is cleared, re-enabling submission. -/
theorem no_second_submission_while_loading (s : ChatState) (h : s.isLoading = true) :
    sendButtonClick s = (s, none)
    ∧ textareaEnterKey s = (s, none)
    ∧ ∀ r, (handleSendMessagePost s r).isLoading = false := by
  refine ⟨?_, ?_, ?_⟩
  · rw [sendButtonClick, if_pos]
    rw [sendButtonDisabled, h]
    simp
  · rw [textareaEnterKey, if_pos h]
  · intro r
    unfold handleSendMessagePost
    split <;> rfl

/-- Witness for C9 at a concrete loading state. -/
theorem no_second_submission_while_loading_witness :
    sendButtonClick ⟨[], "more text", true, none, none⟩ =
      (⟨[], "more text", true, none, none⟩, none) :=
  (no_second_submission_while_loading ⟨[], "more text", true, none, none⟩ rfl).1

/-- C10: the submit handler acts on the whitespace-trimmed input — a
whitespace-only submission without an image is a no-op, and a submission
that goes through stores the trimmed text in the appended user message
and forwards the trimmed text (not the raw input) to the exchange. -/
theorem submit_uses_trimmed_input (s : ChatState) :
    (jsTrim s.input = "" → s.imageToSend = none → handleSendMessagePre s = (s, none))
    ∧ ((jsTrim s.input == "" && s.imageToSend.isNone) = false →
        handleSendMessagePre s =
          ({ messages := s.messages ++ [userMessageFor (jsTrim s.input) s.imageToSend],
             input := "", isLoading := true, error := none, imageToSend := none },
           some (s.messages, jsTrim s.input, s.imageToSend)))
    ∧ (jsTrim s.input ≠ "" →
        (userMessageFor (jsTrim s.input) s.imageToSend).parts.head? =
          some { text := some (jsTrim s.input) }) := by
  refine ⟨?_, ?_, ?_⟩
  · intro htrim himg
    simp [handleSendMessagePre, htrim, himg]
  · intro hc
    rw [handleSendMessagePre]
    simp only [hc]
    rfl
  · intro hne
    have hb : (jsTrim s.input != "") = true := bne_iff_ne.mpr hne
    unfold userMessageFor
    simp [hb]

/-- Witness for C10: a whitespace-only submission is a no-op, and a
padded text submission stores and forwards the trimmed text. -/
theorem submit_uses_trimmed_input_witness :
    handleSendMessagePre ⟨[], "   ", false, none, none⟩ =
      (⟨[], "   ", false, none, none⟩, none)
    ∧ handleSendMessagePre ⟨[], "  hi ", false, none, none⟩ =
        ({ messages := [] ++ [userMessageFor (jsTrim "  hi ") none],
           input := "", isLoading := true, error := none, imageToSend := none },
         some ([], jsTrim "  hi ", none)) :=
  ⟨(submit_uses_trimmed_input ⟨[], "   ", false, none, none⟩).1 (by decide) rfl,
   (submit_uses_trimmed_input ⟨[], "  hi ", false, none, none⟩).2.1 (by decide)⟩

end VisionChat
